import Mathlib

/-!
Verification of the Camo Stencil Studio processing pipeline
(`camo_studio.py`) against its natural-language specification.

The file shallowly embeds the pipeline's algorithmic core:

* `filter_small_blobs` (source lines 30-38): connected-component area
  filtering.  `cv2.connectedComponentsWithStats(mask, connectivity=8)`
  partitions the nonzero pixels into 8-connectivity classes and reports
  each class's pixel count; the subsequent LUT indexing maps a pixel to
  255 exactly when its class has area `>= min_size` (label 0, the
  background, is forced to 0).  We model that semantics directly:
  a pixel survives iff it is nonzero and its 8-connected component of
  nonzero pixels has cardinality at least the threshold.
* the morphological cleanup of `process_thread` (close/open with an
  elliptical kernel, source lines 808-813 and 838-842), modelled as
  max/min filters over a kernel offset list with OpenCV's border
  convention (dilation pads with 0, erosion with 255).
* manual-mode color assignment (source lines 757-763): per-pixel argmin
  of squared Euclidean distance, ties to the lowest index as `np.argmin`.
* the orphan color search (source lines 844-862), including the uint8
  wraparound of `(c - candidate)**2` that the numpy code performs.
* the 2D exporter's path emission (source lines 936-950) and the 3D
  exporter's per-layer control flow (source lines 956-999 and 1001-1128).
  Shapely/trimesh are external libraries; their geometric operations are
  abstracted into a `GeomOps` record whose operations may fail
  (`Except`), mirroring exactly which call sites the Python code guards
  with `try`/`except` and which it does not.
-/

namespace CamoStudio

/-! ## Connected components over a finite pixel type

`cv2.connectedComponentsWithStats` computes the partition of the
foreground (nonzero) pixels into maximal 8-connected classes.  We model
the class of a pixel as the limit of a neighbour-expansion iteration,
which saturates after at most `Fintype.card P` steps. -/

variable {P : Type} [Fintype P] [DecidableEq P]

/-- One expansion step: add every pixel adjacent to the current set. -/
def expandStep (adjB : P → P → Bool) (s : Finset P) : Finset P :=
  s ∪ Finset.univ.filter (fun q => ∃ p ∈ s, adjB p q = true)

/-- The n-fold neighbour expansion of the singleton of `p`. -/
def compIter (adjB : P → P → Bool) : ℕ → P → Finset P
  | 0, p => {p}
  | n + 1, p => expandStep adjB (compIter adjB n p)

/-- The connected component of `p` under `adjB`: the expansion saturates
after `Fintype.card P` steps. -/
def comp (adjB : P → P → Bool) (p : P) : Finset P :=
  compIter adjB (Fintype.card P) p

/-! ## The pixel grid -/

/-- A pixel position in an `h × w` raster. -/
abbrev Pos (h w : ℕ) := Fin h × Fin w

/-- A raster of unsigned 8-bit values (0..255 in all uses). -/
abbrev Mask (h w : ℕ) := Pos h w → ℕ

/-- 8-connectivity: distinct pixels whose row and column each differ by
at most one. -/
def adj8 {h w : ℕ} (p q : Pos h w) : Bool :=
  decide (p ≠ q) &&
  decide (((p.1.val : ℤ) - (q.1.val : ℤ)).natAbs ≤ 1) &&
  decide (((p.2.val : ℤ) - (q.2.val : ℤ)).natAbs ≤ 1)

/-- Adjacency inside the foreground of `mask`: both pixels nonzero and
8-adjacent. -/
def maskAdj {h w : ℕ} (mask : Mask h w) (p q : Pos h w) : Bool :=
  decide (mask p ≠ 0) && decide (mask q ≠ 0) && adj8 p q

/-- Pixel area of the connected component of `p` in `mask` — the
`CC_STAT_AREA` entry of `p`'s label. -/
def compArea {h w : ℕ} (mask : Mask h w) (p : Pos h w) : ℕ :=
  (comp (maskAdj mask) p).card

/-- Source lines 30-38.  `min_size <= 0` returns the mask unchanged;
otherwise a pixel maps to 255 when it is foreground and its 8-connected
component has area at least `min_size`, else to 0 (the background label
is excluded by `valid_labels[0] = False`). -/
def filter_small_blobs {h w : ℕ} (mask : Mask h w) (minSize : ℤ) : Mask h w :=
  if minSize ≤ 0 then mask
  else fun p => if mask p ≠ 0 ∧ minSize ≤ (compArea mask p : ℤ) then 255 else 0

/-! ## Morphology (`cv2.morphologyEx`)

A structuring element is a list of integer offsets.  OpenCV's dilation
takes the maximum over the kernel window padding out-of-bounds with the
minimum value (0), erosion takes the minimum padding with the maximum
(255). -/

/-- A structuring element as a list of (row, column) offsets. -/
abbrev Kernel := List (ℤ × ℤ)

/-- Shift a position by an offset, `none` when out of bounds. -/
def shiftPos {h w : ℕ} (p : Pos h w) (o : ℤ × ℤ) : Option (Pos h w) :=
  let r := (p.1.val : ℤ) + o.1
  let c := (p.2.val : ℤ) + o.2
  if hr : 0 ≤ r ∧ r < (h : ℤ) then
    if hc : 0 ≤ c ∧ c < (w : ℤ) then
      some (⟨r.toNat, by omega⟩, ⟨c.toNat, by omega⟩)
    else none
  else none

/-- Models `cv2.dilate`: max filter over the kernel, out-of-bounds reads 0. -/
def dilate {h w : ℕ} (K : Kernel) (M : Mask h w) : Mask h w := fun p =>
  K.foldl (fun acc o =>
    match shiftPos p o with
    | some q => max acc (M q)
    | none => acc) 0

/-- Models `cv2.erode`: min filter over the kernel, out-of-bounds reads 255. -/
def erode {h w : ℕ} (K : Kernel) (M : Mask h w) : Mask h w := fun p =>
  K.foldl (fun acc o =>
    match shiftPos p o with
    | some q => min acc (M q)
    | none => acc) 255

/-- Models `cv2.MORPH_CLOSE`: dilation followed by erosion. -/
def morphClose {h w : ℕ} (K : Kernel) (M : Mask h w) : Mask h w :=
  erode K (dilate K M)

/-- Models `cv2.MORPH_OPEN`: erosion followed by dilation. -/
def morphOpen {h w : ℕ} (K : Kernel) (M : Mask h w) : Mask h w :=
  dilate K (erode K M)

/-- Models `cv2.bitwise_not` on an 8-bit mask. -/
def bitwise_not {h w : ℕ} (M : Mask h w) : Mask h w := fun p => 255 - M p

/-- Source lines 808-813: each layer mask is closed, then opened, then
area-filtered. -/
def layerMaskProcess {h w : ℕ} (K : Kernel) (minBlob : ℤ) (M : Mask h w) :
    Mask h w :=
  filter_small_blobs (morphOpen K (morphClose K M)) minBlob

/-- Source lines 836-842: the orphan mask is the complement of the
coverage accumulator, opened, then closed, then area-filtered. -/
def orphanMaskProcess {h w : ℕ} (K : Kernel) (minBlob : ℤ)
    (coverage : Mask h w) : Mask h w :=
  filter_small_blobs (morphClose K (morphOpen K (bitwise_not coverage))) minBlob

/-- The cleanup the amended claim ascribes to the orphan mask: the same
kernel and area filter as the layers, but open before close. -/
def orphanCleanupReversed {h w : ℕ} (K : Kernel) (M : Mask h w) : Mask h w :=
  morphClose K (morphOpen K M)

/-! ## Manual-mode color assignment (source lines 756-764)

Pixels and palette entries are 3-channel values (BGR order, 0..255).
`distances[:, i] = np.sum((data - center) ** 2, axis=1)` is computed on
`float32` copies of the 8-bit data, which is exact for these magnitudes,
so integer arithmetic models it faithfully.  `np.argmin` returns the
first (lowest) index attaining the minimum. -/

/-- A 3-channel color value in the source's BGR channel order. -/
abbrev Color3 := ℕ × ℕ × ℕ

/-- Exact squared Euclidean distance in channel space. -/
def dist2 (a b : Color3) : ℤ :=
  ((a.1 : ℤ) - (b.1 : ℤ)) ^ 2 + ((a.2.1 : ℤ) - (b.2.1 : ℤ)) ^ 2 +
    ((a.2.2 : ℤ) - (b.2.2 : ℤ)) ^ 2

/-- Models `np.argmin` over a list of values: index of the first minimum
(0 on the empty list, which the source never hits). -/
def argminIdx : List ℤ → ℕ
  | [] => 0
  | [_] => 0
  | x :: y :: xs =>
    let j := argminIdx (y :: xs)
    if x ≤ (y :: xs).getD j 0 then 0 else j + 1

/-- Source lines 757-762: the label assigned to one pixel is the argmin
over the palette of squared distances. -/
def assignPixel (centers : List Color3) (px : Color3) : ℕ :=
  argminIdx (centers.map (fun c => dist2 px c))

/-- Holds when `i` is the index of the reference color nearest to `px` (squared
Euclidean distance), ties resolving to the lowest index. -/
def IsNearestIdx (centers : List Color3) (px : Color3) (i : ℕ) : Prop :=
  i < centers.length ∧
  (∀ j < centers.length,
    dist2 px (centers.getD i (0, 0, 0)) ≤ dist2 px (centers.getD j (0, 0, 0))) ∧
  (∀ j < i,
    dist2 px (centers.getD i (0, 0, 0)) < dist2 px (centers.getD j (0, 0, 0)))

/-! ## Orphan color search (source lines 844-862)

`final_centers` holds `np.uint8` vectors and `candidate` is cast to
`np.uint8`, so `np.sum((c - candidate) ** 2)` wraps modulo 256 twice:
the subtraction wraps per channel, and the squaring wraps again before
the (promoted) sum.  The model reproduces that arithmetic; channel
values are 0..255 by construction in the source. -/

/-- One channel of `(c - candidate) ** 2` in uint8 arithmetic:
wrapped difference, squared, wrapped again. -/
def buggyChanDist (a b : ℕ) : ℕ := ((a + 256 - b) % 256) ^ 2 % 256

/-- Models `np.sum((c - candidate) ** 2)` for uint8 `c`, `candidate`. -/
def buggyDist (c cand : Color3) : ℕ :=
  buggyChanDist c.1 cand.1 + buggyChanDist c.2.1 cand.2.1 +
    buggyChanDist c.2.2 cand.2.2

/-- Source line 855: `2000 if len(final_centers) < 10 else 500`. -/
def orphanThreshold (n : ℕ) : ℕ := if n < 10 then 2000 else 500

/-- Source line 847: the default color when the search fails (BGR green). -/
def orphanFallback : Color3 := (0, 255, 0)

/-- Source line 857: accept when the distance list is empty or its
minimum exceeds the adaptive threshold. -/
def acceptCandidate (centers : List Color3) (cand : Color3) : Bool :=
  match (centers.map (fun c => buggyDist c cand)).min? with
  | none => true
  | some m => decide (orphanThreshold centers.length < m)

/-- The `while attempts < 50` loop: `draws t` is the candidate drawn on
attempt `t`; on exhaustion the fallback color stands. -/
def orphanSearchFrom (draws : ℕ → Color3) (centers : List Color3) :
    ℕ → ℕ → Color3
  | _, 0 => orphanFallback
  | t, fuel + 1 =>
    let cand := draws t
    if acceptCandidate centers cand then cand
    else orphanSearchFrom draws centers (t + 1) fuel

/-- Source lines 846-859: up to 50 draws starting at attempt 0. -/
def orphanColorSearch (draws : ℕ → Color3) (centers : List Color3) : Color3 :=
  orphanSearchFrom draws centers 0 50

/-- Channel values produced by `np.uint8` data: bounded by 255. -/
def chanOk (c : Color3) : Prop := c.1 ≤ 255 ∧ c.2.1 ≤ 255 ∧ c.2.2 ≤ 255

/-! ## 2D export (source lines 919-954)

`cv2.findContours` is external; its output for a mask is a family of
outer boundaries each with the hole boundaries directly inside it
(OpenCV's two-level `RETR_CCOMP` hierarchy).  The 2D exporter calls it
with `RETR_EXTERNAL`, which returns the outer boundaries only.
`cv2.approxPolyDP` at tolerance `smooth * arcLength` is abstracted as a
ring-simplification function `approxFn`. -/

/-- An integer raster point, as produced by `cv2.findContours`. -/
abbrev IPt := ℤ × ℤ

/-- One outer contour with its directly-enclosed hole contours. -/
structure ContourFam where
  outer : List IPt
  holes : List (List IPt)
  deriving DecidableEq, Repr

/-- One emitted SVG path: vertex list and the `Z` closure flag. -/
structure SvgPathCmd where
  points : List IPt
  closed : Bool
  deriving DecidableEq, Repr

/-- The per-layer 2D sink payload: the path list and the single layer
fill color. -/
structure Layer2DPayload where
  paths : List SvgPathCmd
  fill : Color3
  deriving DecidableEq, Repr

/-- Source lines 937-949 ring loop: simplify, drop rings under 3
vertices, emit a closed path. -/
def svgPathsOfContours (approxFn : List IPt → List IPt) :
    List (List IPt) → List SvgPathCmd
  | [] => []
  | c :: rest =>
    let approx := approxFn c
    if approx.length < 3 then svgPathsOfContours approxFn rest
    else ⟨approx, true⟩ :: svgPathsOfContours approxFn rest

/-- Source lines 936-950: `findContours(mask, RETR_EXTERNAL)` keeps only
the outer boundary of each family; every surviving ring becomes a closed
path filled with the layer color. -/
def export2dLayer (approxFn : List IPt → List IPt) (fams : List ContourFam)
    (color : Color3) : Layer2DPayload :=
  ⟨svgPathsOfContours approxFn (fams.map (·.outer)), color⟩

/-- The amended claim's payload: exactly the simplified outer rings, in
order, holes omitted. -/
def outerOnlyPaths (approxFn : List IPt → List IPt)
    (fams : List ContourFam) : List SvgPathCmd :=
  fams.filterMap (fun f =>
    let a := approxFn f.outer
    if a.length < 3 then none else some ⟨a, true⟩)

/-! ## 3D export (source lines 956-999 and 1001-1128)

Shapely and trimesh are external libraries.  Their operations are
abstracted into a `GeomOps` record over an opaque shape type `S` and
mesh type `M`.  Operations the Python code invokes inside a
`try`/`except` are modelled with `Except`-valued results consumed at the
matching catch site; operations invoked with no handler likewise return
`Except` so that their failures propagate, exactly as a raised exception
propagates to the single `try` wrapping the whole export loop.
Attribute accesses and constructions the code performs unguarded and
that cannot realistically raise (`is_valid`, `is_empty`, `interiors`,
`buffer(0)`, `LineString(...).buffer(w/2)`) are modelled as total. -/

/-- A 2D model-space point (after scaling to physical units). -/
abbrev Pt2 := ℚ × ℚ

/-- Abstracted shapely/trimesh operations over shapes `S` and meshes `M`. -/
structure GeomOps (S M : Type) where
  /-- Models `poly.is_valid` -/
  isValid : S → Bool
  /-- Models `poly.is_empty` -/
  isEmpty : S → Bool
  /-- Models `poly.buffer(0)` -/
  buffer0 : S → S
  /-- Models `poly.interiors`, each hole ring as a shape -/
  interiors : S → List S
  /-- Models `isinstance(shape, MultiPolygon)`: `some parts` when the shape is a
  multi-polygon, `none` when it is a plain polygon -/
  asMulti : S → Option (List S)
  /-- Models `Polygon(shell=..., holes=...)` followed by `.buffer(0)` where the
  source cleans the result; construction may raise -/
  mkPoly : List Pt2 → List (List Pt2) → Except String S
  /-- Models `nearest_points(temp_poly.exterior, interior)`: the attribute access
  and the search may raise (e.g. `MultiPolygon` has no `exterior`) -/
  nearestExterior : S → S → Except String (Pt2 × Pt2)
  /-- Models `LineString([p1, p2]).buffer(bridge_width / 2)` -/
  bridgeShape : Pt2 × Pt2 → ℚ → S
  /-- Models `a.difference(b)`; may raise -/
  difference : S → S → Except String S
  /-- Models `unary_union(polys)`; may raise -/
  unionAll : List S → Except String S
  /-- Models `trimesh.creation.extrude_polygon(p, height)`; may raise -/
  extrude : S → ℚ → Except String M

/-- Models `if not p.is_valid: p = p.buffer(0)` (source lines 965, 988, 1090
and 1105). -/
def repairInvalid {S M : Type} (ops : GeomOps S M) (p : S) : S :=
  if ops.isValid p then p else ops.buffer0 p

/-- Source lines 975-990, the per-hole loop of `apply_stencil_bridges`:
the nearest-point search is outside the `try` so its failure escapes;
the difference (and its validity repair) is inside it, a failure there
leaves `temp_poly` untouched. -/
def bridgeHoles {S M : Type} (ops : GeomOps S M) (bw : ℚ) :
    S → List S → Except String S
  | temp, [] => .ok temp
  | temp, interior :: rest => do
    let pq ← ops.nearestExterior temp interior
    bridgeHoles ops bw
      (match ops.difference temp (ops.bridgeShape pq bw) with
        | .ok d => repairInvalid ops d
        | .error _ => temp) rest

/-- Source lines 964-997, the per-polygon body of
`apply_stencil_bridges`: repair invalid input, pass through hole-free
polygons, bridge the rest, and flatten a resulting multi-polygon. -/
def bridgeOne {S M : Type} (ops : GeomOps S M) (bw : ℚ) (poly : S) :
    Except String (List S) :=
  if (ops.interiors (repairInvalid ops poly)).isEmpty then
    .ok [repairInvalid ops poly]
  else do
    let temp ← bridgeHoles ops bw (repairInvalid ops poly)
      (ops.interiors (repairInvalid ops poly))
    match ops.asMulti temp with
    | some geoms => .ok geoms
    | none => .ok [temp]

/-- Source lines 956-999: `apply_stencil_bridges`, processing the
polygons in order and concatenating their output pieces. -/
def apply_stencil_bridges {S M : Type} (ops : GeomOps S M) (bw : ℚ) :
    List S → Except String (List S)
  | [] => .ok []
  | poly :: rest => do
    let piece ← bridgeOne ops bw poly
    let tail ← apply_stencil_bridges ops bw rest
    .ok (piece ++ tail)

/-- The 3D export configuration snapshot (source lines 1005-1016). -/
structure Export3DParams where
  origW : ℚ
  origH : ℚ
  targetW : ℚ
  height : ℚ
  border : ℚ
  bridge : ℚ
  deriving Repr

/-- Models `target_w / orig_w` (source line 1015). -/
def Export3DParams.scale (pr : Export3DParams) : ℚ := pr.targetW / pr.origW

/-- Models `orig_h * scale` (source line 1016). -/
def Export3DParams.targetH (pr : Export3DParams) : ℚ := pr.origH * pr.scale

/-- Source lines 1039-1040 and 1049-1050: rescale a raster point to
physical units and flip the vertical axis. -/
def scalePt (scale targetH : ℚ) (p : IPt) : Pt2 :=
  ((p.1 : ℚ) * scale, targetH - (p.2 : ℚ) * scale)

/-- Source lines 1043-1052: collect the hole rings of one family,
simplifying each and dropping rings under 3 vertices. -/
def buildHoles (approxFn : List IPt → List IPt) (scale targetH : ℚ) :
    List (List IPt) → List (List Pt2)
  | [] => []
  | c :: rest =>
    let ac := approxFn c
    if 3 ≤ ac.length then
      ac.map (scalePt scale targetH) :: buildHoles approxFn scale targetH rest
    else buildHoles approxFn scale targetH rest

/-- Source lines 1031-1059: build the shapely polygon list of one layer.
A construction failure is swallowed per family (`except: pass`); an
empty cleaned polygon is skipped. -/
def buildPolys {S M : Type} (ops : GeomOps S M)
    (approxFn : List IPt → List IPt) (scale targetH : ℚ) :
    List ContourFam → List S
  | [] => []
  | fam :: rest =>
    let ax := approxFn fam.outer
    if ax.length < 3 then buildPolys ops approxFn scale targetH rest
    else
      match ops.mkPoly (ax.map (scalePt scale targetH))
          (buildHoles approxFn scale targetH fam.holes) with
      | .ok p =>
        if ops.isEmpty (ops.buffer0 p) then
          buildPolys ops approxFn scale targetH rest
        else ops.buffer0 p :: buildPolys ops approxFn scale targetH rest
      | .error _ => buildPolys ops approxFn scale targetH rest

/-- Source lines 1089-1093 and 1104-1108: extrude each piece after
repairing invalid ones and skipping empty ones; an extrusion exception
is unguarded. -/
def extrudePieces {S M : Type} (ops : GeomOps S M) (ht : ℚ) :
    List S → Except String (List M)
  | [] => .ok []
  | p :: rest =>
    if ops.isEmpty (repairInvalid ops p) then extrudePieces ops ht rest
    else do
      let m ← ops.extrude (repairInvalid ops p) ht
      let ms ← extrudePieces ops ht rest
      .ok (m :: ms)

/-- Models `isinstance(shape, MultiPolygon)` flattening (source lines
1084-1087 and 1099-1102). -/
def splitMulti {S M : Type} (ops : GeomOps S M) (s : S) : List S :=
  match ops.asMulti s with
  | some gs => gs
  | none => [s]

/-- Source lines 1071-1073: the bordered plate's corners,
`(-border, -border)` to `(target_w + border, target_h + border)`. -/
def plateCorners (pr : Export3DParams) : List Pt2 :=
  [(-pr.border, -pr.border), (pr.targetW + pr.border, -pr.border),
   (pr.targetW + pr.border, pr.targetH + pr.border),
   (-pr.border, pr.targetH + pr.border)]

/-- Source lines 1111-1113: the relief-mode frame ring's inner rectangle. -/
def innerBoxCorners (pr : Export3DParams) : List Pt2 :=
  [(0, 0), (pr.targetW, 0), (pr.targetW, pr.targetH), (0, pr.targetH)]

/-- Source lines 1061-1066: in stencil mode with a positive bridge
width the polygons are bridged; otherwise they pass through. -/
def layerPolys {S M : Type} (ops : GeomOps S M)
    (approxFn : List IPt → List IPt) (pr : Export3DParams) (stencil : Bool)
    (fams : List ContourFam) : Except String (List S) :=
  if stencil then
    if 0 < pr.bridge then
      apply_stencil_bridges ops pr.bridge
        (buildPolys ops approxFn pr.scale pr.targetH fams)
    else .ok (buildPolys ops approxFn pr.scale pr.targetH fams)
  else .ok (buildPolys ops approxFn pr.scale pr.targetH fams)

/-- Source lines 1075-1081: the plate minus the blob union; on a union
or difference failure the undifferenced plate stands in. -/
def stencilFinalShape {S M : Type} (ops : GeomOps S M) (plate : S)
    (polys : List S) : S :=
  if polys.isEmpty then plate
  else
    match ops.unionAll polys >>= ops.difference plate with
    | .ok fs => fs
    | .error _ => plate

/-- Source lines 1070-1093: the stencil-mode scene meshes. -/
def stencilMeshes {S M : Type} (ops : GeomOps S M) (pr : Export3DParams)
    (polys : List S) : Except String (List M) := do
  let plate ← ops.mkPoly (plateCorners pr) []
  extrudePieces ops pr.height
    (splitMulti ops (stencilFinalShape ops plate polys))

/-- Source lines 1096-1108: the relief-mode blob meshes; the union here
is unguarded. -/
def reliefBlobMeshes {S M : Type} (ops : GeomOps S M) (pr : Export3DParams)
    (polys : List S) : Except String (List M) :=
  if polys.isEmpty then .ok []
  else do
    let combined ← ops.unionAll polys
    extrudePieces ops pr.height (splitMulti ops combined)

/-- Source lines 1110-1116: the relief-mode frame ring added when the
border width is positive; construction and extrusion are unguarded. -/
def reliefWithBorder {S M : Type} (ops : GeomOps S M) (pr : Export3DParams)
    (blobMeshes : List M) : Except String (List M) :=
  if 0 < pr.border then do
    let borderPoly ← ops.mkPoly (plateCorners pr) [innerBoxCorners pr]
    let bm ← ops.extrude borderPoly pr.height
    .ok (blobMeshes ++ [bm])
  else .ok blobMeshes

/-- Source lines 1018-1119, the body of the per-layer loop of
`export_3d_thread` (file naming and disk output elided).  Returns
`some meshes` when a non-empty scene is exported, `none` when the layer
is silently skipped, and an error when an unguarded exception escapes. -/
def exportLayer {S M : Type} (ops : GeomOps S M)
    (approxFn : List IPt → List IPt) (pr : Export3DParams) (stencil : Bool)
    (fams : List ContourFam) : Except String (Option (List M)) := do
  let polys ← layerPolys ops approxFn pr stencil fams
  let meshes ←
    if stencil then stencilMeshes ops pr polys
    else do
      let bms ← reliefBlobMeshes ops pr polys
      reliefWithBorder ops pr bms
  .ok (if meshes.isEmpty then none else some meshes)

/-- The layer loop of `export_3d_thread` (source lines 1018-1119) under
the single `try` of lines 1002/1124: the first escaping exception aborts
every remaining layer. -/
def export3d {S M : Type} (ops : GeomOps S M)
    (approxFn : List IPt → List IPt) (pr : Export3DParams) (stencil : Bool) :
    List (List ContourFam) → Except String (List (Option (List M)))
  | [] => .ok []
  | l :: rest => do
    let r ← exportLayer ops approxFn pr stencil l
    let rs ← export3d ops approxFn pr stencil rest
    .ok (r :: rs)

/-! ## Concrete instances used by counterexamples and witnesses -/

/-- The 3×3 elliptical structuring element
(`cv2.getStructuringElement(cv2.MORPH_ELLIPSE, (3, 3))` is the cross). -/
def crossKernel : Kernel := [(0, 0), (0, 1), (0, -1), (1, 0), (-1, 0)]

/-- A 1×5 coverage mask whose complement is the row `255 0 255 0 0`. -/
def covC5 : Mask 1 5 := fun p =>
  if p.2.val = 1 ∨ p.2.val = 3 ∨ p.2.val = 4 then 255 else 0

/-- The all-foreground 1×1 mask. -/
def maskOne : Mask 1 1 := fun _ => 255

/-- Shapes are lists of hole identifiers; every boolean difference
raises, as shapely's `difference` can (the `except` on source line 989
exists precisely for that). -/
def diffFailOps : GeomOps (List ℕ) Unit where
  isValid _ := true
  isEmpty _ := false
  buffer0 s := s
  interiors s := s.map (fun n => [n])
  asMulti _ := none
  mkPoly _ _ := .ok []
  nearestExterior _ _ := .ok ((0, 0), (0, 0))
  bridgeShape _ _ := []
  difference _ _ := .error "TopologyException"
  unionAll _ := .ok []
  extrude _ _ := .ok ()

/-- Every constructed polygon has one hole and the nearest-point search
raises (as `temp_poly.exterior` does once `temp_poly` is a
`MultiPolygon`). -/
def nearestFailOps : GeomOps (List ℕ) Unit where
  isValid _ := true
  isEmpty _ := false
  buffer0 s := s
  interiors s := s.map (fun n => [n])
  asMulti _ := none
  mkPoly _ _ := .ok [5]
  nearestExterior _ _ := .error "AttributeError"
  bridgeShape _ _ := []
  difference s _ := .ok s
  unionAll _ := .ok []
  extrude _ _ := .ok ()

/-- Shapes numbered by vertex count; extruding shape 3 raises, every
other operation succeeds. -/
def extrudeFailOps : GeomOps ℕ ℕ where
  isValid _ := true
  isEmpty s := decide (s = 0)
  buffer0 s := s
  interiors _ := []
  asMulti _ := none
  mkPoly pts _ := .ok pts.length
  nearestExterior _ _ := .ok ((0, 0), (0, 0))
  bridgeShape _ _ := 0
  difference s _ := .ok s
  unionAll l := .ok (l.foldl (· + ·) 0)
  extrude s _ := if s = 3 then .error "degenerate mesh" else .ok s

/-- An instance whose guarded operations fail while the unguarded ones
succeed: polygon construction succeeds only on 4-point shells (the
plate and frame), so the guarded per-contour constructions of a
triangle contour raise; every union and every difference raises —
failures the stencil branch catches with the plate fallback. -/
def guardedFailOps : GeomOps ℕ ℕ where
  isValid _ := true
  isEmpty s := decide (s = 0)
  buffer0 s := s
  interiors _ := []
  asMulti _ := none
  mkPoly pts holes :=
    if pts.length = 4 then .ok (pts.length + holes.length)
    else .error "invalid polygon"
  nearestExterior _ _ := .ok ((0, 0), (0, 0))
  bridgeShape _ _ := 0
  difference _ _ := .error "TopologyException"
  unionAll _ := .error "union failed"
  extrude s _ := .ok s

/-- An instance on which every operation succeeds. -/
def totalOps : GeomOps ℕ ℕ where
  isValid _ := true
  isEmpty s := decide (s = 0)
  buffer0 s := s
  interiors _ := []
  asMulti _ := none
  mkPoly pts _ := .ok pts.length
  nearestExterior _ _ := .ok ((0, 0), (0, 0))
  bridgeShape _ _ := 0
  difference s _ := .ok s
  unionAll l := .ok (l.foldl (· + ·) 0)
  extrude s _ := .ok s

/-- Hole-list shapes on which every bridge difference succeeds and
removes all holes. -/
def bridgeOkOps : GeomOps (List ℕ) Unit where
  isValid _ := true
  isEmpty _ := false
  buffer0 s := s
  interiors s := s.map (fun n => [n])
  asMulti _ := none
  mkPoly _ _ := .ok []
  nearestExterior _ _ := .ok ((0, 0), (0, 0))
  bridgeShape _ _ := []
  difference _ _ := .ok []
  unionAll _ := .ok []
  extrude _ _ := .ok ()

/-- A triangle contour family (3 vertices, no holes). -/
def famTri : ContourFam := ⟨[(0, 0), (1, 0), (0, 1)], []⟩

/-- A quadrilateral contour family (4 vertices, no holes). -/
def famQuad : ContourFam := ⟨[(0, 0), (2, 0), (2, 2), (0, 2)], []⟩

/-- An outer square boundary. -/
def outerSq : List IPt := [(0, 0), (10, 0), (10, 10), (0, 10)]

/-- A hole boundary strictly inside `outerSq`. -/
def holeSq : List IPt := [(3, 3), (7, 3), (7, 7), (3, 7)]

/-- A mask family with one outer boundary containing one hole. -/
def famHole : ContourFam := ⟨outerSq, [holeSq]⟩

/-- Concrete relief-mode export parameters (border 0). -/
def prRelief : Export3DParams :=
  { origW := 10, origH := 10, targetW := 10, height := 2, border := 0,
    bridge := 1 }

/-- Concrete stencil-mode export parameters. -/
def prStencil : Export3DParams :=
  { origW := 10, origH := 10, targetW := 10, height := 2, border := 5,
    bridge := 1 }

/-! ## Lemmas: the connected-component iteration -/

variable {Q : Type} [Fintype Q] [DecidableEq Q]

theorem subset_expandStep (adjB : Q → Q → Bool) (s : Finset Q) :
    s ⊆ expandStep adjB s :=
  Finset.subset_union_left

theorem mem_expandStep_of_adj (adjB : Q → Q → Bool) {s : Finset Q} {a b : Q}
    (ha : a ∈ s) (hab : adjB a b = true) : b ∈ expandStep adjB s := by
  refine Finset.mem_union_right _ ?_
  exact Finset.mem_filter.mpr ⟨Finset.mem_univ b, a, ha, hab⟩

theorem expandStep_subset {adjB : Q → Q → Bool} {s t : Finset Q}
    (hst : s ⊆ t) : expandStep adjB s ⊆ expandStep adjB t := by
  intro q hq
  rcases Finset.mem_union.mp hq with h | h
  · exact Finset.mem_union_left _ (hst h)
  · obtain ⟨-, a, ha, hadj⟩ := Finset.mem_filter.mp h
    exact mem_expandStep_of_adj adjB (hst ha) hadj

theorem self_mem_compIter (adjB : Q → Q → Bool) (n : ℕ) (p : Q) :
    p ∈ compIter adjB n p := by
  induction n with
  | zero => simp [compIter]
  | succ n ih => exact subset_expandStep adjB _ ih

theorem compIter_subset_succ (adjB : Q → Q → Bool) (n : ℕ) (p : Q) :
    compIter adjB n p ⊆ compIter adjB (n + 1) p :=
  subset_expandStep adjB _

theorem self_mem_comp (adjB : Q → Q → Bool) (p : Q) : p ∈ comp adjB p :=
  self_mem_compIter adjB _ p

theorem compIter_stab (adjB : Q → Q → Bool) {k : ℕ} {p : Q}
    (heq : compIter adjB (k + 1) p = compIter adjB k p) :
    ∀ d, compIter adjB (k + d) p = compIter adjB k p := by
  intro d
  induction d with
  | zero => rfl
  | succ d ih =>
    have : compIter adjB (k + (d + 1)) p = expandStep adjB (compIter adjB (k + d) p) := rfl
    rw [this, ih]
    exact heq

theorem compIter_card_ge (adjB : Q → Q → Bool) (p : Q) (n : ℕ)
    (hne : ∀ k < n, compIter adjB (k + 1) p ≠ compIter adjB k p) :
    n + 1 ≤ (compIter adjB n p).card := by
  induction n with
  | zero => simp [compIter]
  | succ n ih =>
    have h1 : n + 1 ≤ (compIter adjB n p).card :=
      ih (fun k hk => hne k (by omega))
    have hss : compIter adjB n p ⊂ compIter adjB (n + 1) p := by
      refine Finset.ssubset_iff_subset_ne.mpr
        ⟨compIter_subset_succ adjB n p, ?_⟩
      exact fun h => hne n (by omega) h.symm
    have := Finset.card_lt_card hss
    omega

theorem expandStep_comp (adjB : Q → Q → Bool) (p : Q) :
    expandStep adjB (comp adjB p) = comp adjB p := by
  by_cases h : ∃ k < Fintype.card Q, compIter adjB (k + 1) p = compIter adjB k p
  · obtain ⟨k, hk, heq⟩ := h
    have hN : compIter adjB (Fintype.card Q) p = compIter adjB k p := by
      have := compIter_stab adjB heq (Fintype.card Q - k)
      rwa [Nat.add_sub_cancel' (Nat.le_of_lt hk)] at this
    have hN1 : compIter adjB (Fintype.card Q + 1) p = compIter adjB k p := by
      have := compIter_stab adjB heq (Fintype.card Q + 1 - k)
      rwa [Nat.add_sub_cancel' (by omega : k ≤ Fintype.card Q + 1)] at this
    show compIter adjB (Fintype.card Q + 1) p = comp adjB p
    rw [hN1, comp, hN]
  · push_neg at h
    have hcard := compIter_card_ge adjB p (Fintype.card Q) h
    have hle : (compIter adjB (Fintype.card Q) p).card ≤ Fintype.card Q :=
      Finset.card_le_univ _
    omega

theorem comp_closed (adjB : Q → Q → Bool) {p q r : Q}
    (hq : q ∈ comp adjB p) (hqr : adjB q r = true) : r ∈ comp adjB p := by
  have : r ∈ expandStep adjB (comp adjB p) := mem_expandStep_of_adj adjB hq hqr
  rwa [expandStep_comp adjB p] at this

theorem compIter_subset_closed (adjB : Q → Q → Bool) {p : Q} {T : Finset Q}
    (hp : p ∈ T) (hT : ∀ a ∈ T, ∀ b, adjB a b = true → b ∈ T) :
    ∀ n, compIter adjB n p ⊆ T := by
  intro n
  induction n with
  | zero => simpa [compIter]
  | succ n ih =>
    intro q hq
    rcases Finset.mem_union.mp hq with h | h
    · exact ih h
    · obtain ⟨-, a, ha, hadj⟩ := Finset.mem_filter.mp h
      exact hT a (ih ha) q hadj

theorem comp_minimal (adjB : Q → Q → Bool) {p : Q} {T : Finset Q}
    (hp : p ∈ T) (hT : ∀ a ∈ T, ∀ b, adjB a b = true → b ∈ T) :
    comp adjB p ⊆ T :=
  compIter_subset_closed adjB hp hT _

theorem compIter_elem_cases (adjB : Q → Q → Bool) {p q : Q} {n : ℕ}
    (hq : q ∈ compIter adjB n p) : q = p ∨ ∃ a, adjB a q = true := by
  induction n with
  | zero => left; simpa [compIter] using hq
  | succ n ih =>
    rcases Finset.mem_union.mp hq with h | h
    · exact ih h
    · obtain ⟨-, a, _, hadj⟩ := Finset.mem_filter.mp h
      exact Or.inr ⟨a, hadj⟩

theorem comp_elem_cases (adjB : Q → Q → Bool) {p q : Q}
    (hq : q ∈ comp adjB p) : q = p ∨ ∃ a, adjB a q = true :=
  compIter_elem_cases adjB hq

theorem compIter_symm_mem (adjB : Q → Q → Bool)
    (hsym : ∀ a b, adjB a b = true → adjB b a = true) :
    ∀ (n : ℕ) (p q : Q), q ∈ compIter adjB n p → p ∈ comp adjB q := by
  intro n
  induction n with
  | zero =>
    intro p q hq
    have : q = p := by simpa [compIter] using hq
    subst this
    exact self_mem_comp adjB q
  | succ n ih =>
    intro p q hq
    rcases Finset.mem_union.mp hq with h | h
    · exact ih p q h
    · obtain ⟨-, a, ha, hadj⟩ := Finset.mem_filter.mp h
      have haq : a ∈ comp adjB q :=
        comp_closed adjB (self_mem_comp adjB q) (hsym a q hadj)
      have hpa : p ∈ comp adjB a := ih p a ha
      have : comp adjB a ⊆ comp adjB q :=
        comp_minimal adjB haq (fun x hx b hb => comp_closed adjB hx hb)
      exact this hpa

theorem comp_eq_of_mem (adjB : Q → Q → Bool)
    (hsym : ∀ a b, adjB a b = true → adjB b a = true) {p q : Q}
    (hq : q ∈ comp adjB p) : comp adjB q = comp adjB p := by
  apply Finset.Subset.antisymm
  · exact comp_minimal adjB hq (fun x hx b hb => comp_closed adjB hx hb)
  · exact comp_minimal adjB (compIter_symm_mem adjB hsym _ p q hq)
      (fun x hx b hb => comp_closed adjB hx hb)

theorem compIter_mono_adj {adjB adjB2 : Q → Q → Bool}
    (hmono : ∀ a b, adjB a b = true → adjB2 a b = true) (n : ℕ) (p : Q) :
    compIter adjB n p ⊆ compIter adjB2 n p := by
  induction n with
  | zero => simp [compIter]
  | succ n ih =>
    intro q hq
    rcases Finset.mem_union.mp hq with h | h
    · exact subset_expandStep adjB2 _ (ih h)
    · obtain ⟨-, a, ha, hadj⟩ := Finset.mem_filter.mp h
      exact mem_expandStep_of_adj adjB2 (ih ha) (hmono a q hadj)

theorem comp_mono_adj {adjB adjB2 : Q → Q → Bool}
    (hmono : ∀ a b, adjB a b = true → adjB2 a b = true) (p : Q) :
    comp adjB p ⊆ comp adjB2 p :=
  compIter_mono_adj hmono _ p

/-! ## Lemmas: foreground adjacency -/

theorem maskAdj_iff {h w : ℕ} (mask : Mask h w) (a b : Pos h w) :
    maskAdj mask a b = true ↔ mask a ≠ 0 ∧ mask b ≠ 0 ∧ adj8 a b = true := by
  simp [maskAdj, Bool.and_eq_true, and_assoc]

theorem adj8_symm {h w : ℕ} {a b : Pos h w} (hab : adj8 a b = true) :
    adj8 b a = true := by
  simp only [adj8, Bool.and_eq_true, decide_eq_true_eq] at *
  exact ⟨⟨hab.1.1.symm, by omega⟩, by omega⟩

theorem maskAdj_symm {h w : ℕ} (mask : Mask h w) :
    ∀ a b, maskAdj mask a b = true → maskAdj mask b a = true := by
  intro a b hab
  rw [maskAdj_iff] at hab ⊢
  exact ⟨hab.2.1, hab.1, adj8_symm hab.2.2⟩

theorem comp_mem_nonzero {h w : ℕ} (mask : Mask h w) {p q : Pos h w}
    (hp : mask p ≠ 0) (hq : q ∈ comp (maskAdj mask) p) : mask q ≠ 0 := by
  rcases comp_elem_cases (maskAdj mask) hq with rfl | ⟨a, ha⟩
  · exact hp
  · exact ((maskAdj_iff mask a q).mp ha).2.1

/-! ## Claims C8 and C10: the area filter -/

theorem filter_small_blobs_pos {h w : ℕ} (mask : Mask h w) {minSize : ℤ}
    (hms : ¬ minSize ≤ 0) (p : Pos h w) :
    filter_small_blobs mask minSize p =
      if mask p ≠ 0 ∧ minSize ≤ (compArea mask p : ℤ) then 255 else 0 := by
  simp [filter_small_blobs, hms]

theorem filter_small_blobs_ne_zero {h w : ℕ} (mask : Mask h w) {minSize : ℤ}
    (hms : ¬ minSize ≤ 0) (p : Pos h w) :
    filter_small_blobs mask minSize p ≠ 0 ↔
      mask p ≠ 0 ∧ minSize ≤ (compArea mask p : ℤ) := by
  rw [filter_small_blobs_pos mask hms p]
  by_cases hc : mask p ≠ 0 ∧ minSize ≤ (compArea mask p : ℤ) <;> simp [hc]

/-- C8: for every input mask and every minimum-area threshold, every
8-connected component of the filtered mask (background excluded: we look
at the component of any surviving pixel) has pixel area at least the
threshold.  The claim restricts to thresholds ≥ 0; this holds for all
thresholds. -/
theorem c8_area_filter_no_small_component {h w : ℕ} (mask : Mask h w)
    (minSize : ℤ) (p : Pos h w)
    (hp : filter_small_blobs mask minSize p ≠ 0) :
    minSize ≤ (compArea (filter_small_blobs mask minSize) p : ℤ) := by
  by_cases hms : minSize ≤ 0
  · exact le_trans hms (Int.natCast_nonneg _)
  · have hpdata := (filter_small_blobs_ne_zero mask hms p).mp hp
    have hmono : ∀ a b : Pos h w,
        maskAdj (filter_small_blobs mask minSize) a b = true →
        maskAdj mask a b = true := by
      intro a b hab
      rw [maskAdj_iff] at hab ⊢
      refine ⟨?_, ?_, hab.2.2⟩
      · exact fun h0 => hab.1 (by
          rw [filter_small_blobs_pos mask hms a]
          simp [h0])
      · exact fun h0 => hab.2.1 (by
          rw [filter_small_blobs_pos mask hms b]
          simp [h0])
    have hsub1 : comp (maskAdj (filter_small_blobs mask minSize)) p ⊆
        comp (maskAdj mask) p := comp_mono_adj hmono p
    have hsub2 : comp (maskAdj mask) p ⊆
        comp (maskAdj (filter_small_blobs mask minSize)) p := by
      refine comp_minimal (maskAdj mask)
        (self_mem_comp (maskAdj (filter_small_blobs mask minSize)) p) ?_
      intro a ha b hab
      have hamask := (maskAdj_iff mask a b).mp hab
      have houta : filter_small_blobs mask minSize a ≠ 0 :=
        comp_mem_nonzero (filter_small_blobs mask minSize) hp ha
      have hbmem : b ∈ comp (maskAdj mask) p :=
        comp_closed (maskAdj mask) (hsub1 ha) hab
      have hareab : minSize ≤ (compArea mask b : ℤ) := by
        have : comp (maskAdj mask) b = comp (maskAdj mask) p :=
          comp_eq_of_mem (maskAdj mask) (maskAdj_symm mask) hbmem
        unfold compArea
        rw [this]
        exact hpdata.2
      have houtb : filter_small_blobs mask minSize b ≠ 0 :=
        (filter_small_blobs_ne_zero mask hms b).mpr ⟨hamask.2.1, hareab⟩
      have hadjout : maskAdj (filter_small_blobs mask minSize) a b = true :=
        (maskAdj_iff _ a b).mpr ⟨houta, houtb, hamask.2.2⟩
      exact comp_closed (maskAdj (filter_small_blobs mask minSize)) ha hadjout
    have heq : compArea (filter_small_blobs mask minSize) p =
        compArea mask p := by
      unfold compArea
      rw [Finset.Subset.antisymm hsub1 hsub2]
    rw [heq]
    exact hpdata.2

/-- Witness for C8 on a concrete 1×1 all-foreground mask with
threshold 1. -/
theorem c8_area_filter_witness :
    (1 : ℤ) ≤ (compArea (filter_small_blobs maskOne 1) (0, 0) : ℤ) :=
  c8_area_filter_no_small_component maskOne 1 (0, 0) (by decide)

/-- C10: for every binary mask (every pixel 0 or 255, the only values
the pipeline ever feeds it) and every minimum size, the area filter
never adds pixels, keeps the mask binary, and is the identity whenever
the minimum size is ≤ 0. -/
theorem c10_area_filter_invariants {h w : ℕ} (mask : Mask h w)
    (minSize : ℤ) (hbin : ∀ p, mask p = 0 ∨ mask p = 255) :
    (∀ p, (filter_small_blobs mask minSize p ≠ 0 → mask p ≠ 0) ∧
      (filter_small_blobs mask minSize p = 0 ∨
        filter_small_blobs mask minSize p = 255)) ∧
    (minSize ≤ 0 → filter_small_blobs mask minSize = mask) := by
  by_cases hms : minSize ≤ 0
  · refine ⟨fun p => ⟨fun hp => ?_, ?_⟩, fun _ => ?_⟩
    · simpa [filter_small_blobs, hms] using hp
    · simpa [filter_small_blobs, hms] using hbin p
    · simp [filter_small_blobs, hms]
  · refine ⟨fun p => ⟨fun hp => ?_, ?_⟩, fun habs => absurd habs hms⟩
    · exact ((filter_small_blobs_ne_zero mask hms p).mp hp).1
    · rw [filter_small_blobs_pos mask hms p]
      by_cases hc : mask p ≠ 0 ∧ minSize ≤ (compArea mask p : ℤ) <;> simp [hc]

/-- Witness for C10 on the concrete 1×1 mask with minimum size -1. -/
theorem c10_area_filter_witness :
    filter_small_blobs maskOne (-1) = maskOne :=
  (c10_area_filter_invariants maskOne (-1) (fun _ => Or.inr rfl)).2 (by decide)

/-! ## Claim C5: orphan-mask cleanup order -/

/-- C5 counterexample: the claim asserts the complement-of-coverage mask
receives the same morphological sequence as the layer masks (close, then
open, then the area filter).  On the 1×5 coverage mask `covC5` with the
3×3 elliptical (cross) kernel and minimum blob size 0, the orphan
pipeline (source lines 838-842: open then close) yields 0 at pixel
(0,0) while the layer sequence applied to the same complement mask
(source lines 809-813) yields 255 — the two pipelines differ. -/
theorem c5_counterexample :
    orphanMaskProcess crossKernel 0 covC5 ((0 : Fin 1), (0 : Fin 5)) = 0 ∧
    layerMaskProcess crossKernel 0 (bitwise_not covC5)
      ((0 : Fin 1), (0 : Fin 5)) = 255 := by
  constructor <;> decide

/-- C5 amended: the orphan mask receives the same elliptical kernel and
the same minimum-area filter as the layer masks, but the morphological
operations are applied in the reversed order — open, then close — to the
complement of the coverage mask. -/
theorem c5_amended {h w : ℕ} (K : Kernel) (minBlob : ℤ)
    (coverage : Mask h w) (M : Mask h w) :
    orphanMaskProcess K minBlob coverage =
      filter_small_blobs (orphanCleanupReversed K (bitwise_not coverage))
        minBlob ∧
    layerMaskProcess K minBlob M =
      filter_small_blobs (morphOpen K (morphClose K M)) minBlob :=
  ⟨rfl, rfl⟩

/-! ## Claim C7: manual-mode color assignment -/

theorem argminIdx_lt_length : ∀ (l : List ℤ), l ≠ [] → argminIdx l < l.length
  | [], h => absurd rfl h
  | [_], _ => by simp [argminIdx]
  | x :: y :: xs, _ => by
    have ih := argminIdx_lt_length (y :: xs) (by simp)
    simp only [argminIdx]
    split
    · simp
    · simpa using Nat.succ_lt_succ ih

theorem argminIdx_le : ∀ (l : List ℤ) (k : ℕ), k < l.length →
    l.getD (argminIdx l) 0 ≤ l.getD k 0
  | [], k, hk => by simp at hk
  | [x], k, hk => by
    have : k = 0 := by simpa using hk
    subst this
    simp [argminIdx]
  | x :: y :: xs, k, hk => by
    simp only [argminIdx]
    split
    all_goals rename_i hle
    · rw [List.getD_cons_zero]
      match k with
      | 0 => simp
      | k + 1 =>
        rw [List.getD_cons_succ]
        exact le_trans hle (argminIdx_le (y :: xs) k (by simpa using hk))
    · rw [List.getD_cons_succ]
      match k with
      | 0 => rw [List.getD_cons_zero]; exact le_of_lt (not_le.mp hle)
      | k + 1 =>
        rw [List.getD_cons_succ]
        exact argminIdx_le (y :: xs) k (by simpa using hk)

theorem argminIdx_first : ∀ (l : List ℤ) (k : ℕ), k < argminIdx l →
    l.getD (argminIdx l) 0 < l.getD k 0
  | [], k, hk => by simp [argminIdx] at hk
  | [x], k, hk => by simp [argminIdx] at hk
  | x :: y :: xs, k, hk => by
    simp only [argminIdx] at hk ⊢
    split at hk
    all_goals rename_i hle
    · omega
    · rw [if_neg hle, List.getD_cons_succ]
      match k, hk with
      | 0, _ => rw [List.getD_cons_zero]; exact not_le.mp hle
      | k + 1, hk =>
        rw [List.getD_cons_succ]
        exact argminIdx_first (y :: xs) k (by omega)

/-- C7: in manual mode, each pixel is assigned the index of the
reference color minimizing squared Euclidean distance, with ties going
to the lowest index (`np.argmin`).  Determinism is immediate: the
embedding `assignPixel` is a pure function of palette and pixel. -/
theorem c7_manual_assignment (centers : List Color3) (px : Color3)
    (hne : centers ≠ []) :
    IsNearestIdx centers px (assignPixel centers px) := by
  set l := centers.map (fun c => dist2 px c) with hl
  have hlne : l ≠ [] := by
    rw [hl]
    intro habs
    exact hne (List.map_eq_nil_iff.mp habs)
  have hlen : l.length = centers.length := by simp [hl]
  have hidx : argminIdx l < centers.length := hlen ▸ argminIdx_lt_length l hlne
  have hgetD : ∀ j, j < centers.length →
      l.getD j 0 = dist2 px (centers.getD j (0, 0, 0)) := by
    intro j hj
    rw [List.getD_eq_getElem l 0 (by omega), List.getD_eq_getElem centers _ hj]
    simp [hl]
  refine ⟨hidx, fun j hj => ?_, fun j hj => ?_⟩
  · have := argminIdx_le l j (by omega)
    rwa [hgetD _ hidx, hgetD _ hj] at this
  · have := argminIdx_first l j hj
    rwa [hgetD _ hidx, hgetD _ (lt_trans hj hidx)] at this

/-- Witness for C7 on a concrete two-color palette. -/
theorem c7_manual_assignment_witness :
    IsNearestIdx [(1, 2, 3), (4, 5, 6)] (4, 5, 6)
      (assignPixel [(1, 2, 3), (4, 5, 6)] (4, 5, 6)) :=
  c7_manual_assignment [(1, 2, 3), (4, 5, 6)] (4, 5, 6) (by decide)

/-! ## Claim C4: orphan color search

The wrapped uint8 distance is bounded by the exact squared Euclidean
distance, so a candidate the code accepts also clears the threshold
under the exact distance the claim speaks about. -/

theorem buggyChanDist_le (a b : ℕ) (ha : a ≤ 255) (hb : b ≤ 255) :
    (buggyChanDist a b : ℤ) ≤ ((a : ℤ) - b) ^ 2 := by
  have hble : b ≤ a + 256 := by omega
  have hD : ((a + 256 - b : ℕ) : ℤ) = (a : ℤ) - b + 256 := by
    rw [Nat.cast_sub hble]
    push_cast
    ring
  have hrw : (buggyChanDist a b : ℤ) = ((a : ℤ) - b + 256) ^ 2 % 256 := by
    unfold buggyChanDist
    rw [← Nat.pow_mod]
    push_cast [hD]
    ring_nf
  rw [hrw]
  have hmod : ((a : ℤ) - b + 256) ^ 2 % 256 = ((a : ℤ) - b) ^ 2 % 256 := by
    have hexp : ((a : ℤ) - b + 256) ^ 2 =
        ((a : ℤ) - b) ^ 2 + 256 * (2 * ((a : ℤ) - b) + 256) := by ring
    rw [hexp, Int.add_mul_emod_self_left]
  rw [hmod]
  rcases le_or_lt (((a : ℤ) - b) ^ 2) 255 with hsmall | hbig
  · rw [Int.emod_eq_of_lt (sq_nonneg _) (by omega)]
  · have hlt : ((a : ℤ) - b) ^ 2 % 256 < 256 :=
      Int.emod_lt_of_pos _ (by norm_num)
    have : (256 : ℤ) ≤ ((a : ℤ) - b) ^ 2 := by omega
    exact le_trans (le_of_lt hlt) this

theorem buggyDist_le (c cand : Color3) (hc : chanOk c) (hcand : chanOk cand) :
    (buggyDist c cand : ℤ) ≤ dist2 c cand := by
  have h1 := buggyChanDist_le c.1 cand.1 hc.1 hcand.1
  have h2 := buggyChanDist_le c.2.1 cand.2.1 hc.2.1 hcand.2.1
  have h3 := buggyChanDist_le c.2.2 cand.2.2 hc.2.2 hcand.2.2
  unfold buggyDist dist2
  push_cast
  linarith

theorem acceptCandidate_spec {centers : List Color3} {cand : Color3}
    (hacc : acceptCandidate centers cand = true) :
    ∀ c ∈ centers, orphanThreshold centers.length < buggyDist c cand := by
  intro c hc
  unfold acceptCandidate at hacc
  rcases hmin : (centers.map (fun c => buggyDist c cand)).min? with _ | m
  · rw [List.min?_eq_none_iff] at hmin
    rw [List.map_eq_nil_iff] at hmin
    subst hmin
    simp at hc
  · rw [hmin] at hacc
    have hthr : orphanThreshold centers.length < m := of_decide_eq_true hacc
    have hmem : buggyDist c cand ∈ centers.map (fun c => buggyDist c cand) :=
      List.mem_map_of_mem _ hc
    have hle := (List.min?_eq_some_iff'.mp hmin).2 _ hmem
    omega

theorem orphanSearchFrom_cases (draws : ℕ → Color3) (centers : List Color3) :
    ∀ (fuel t : ℕ),
      orphanSearchFrom draws centers t fuel = orphanFallback ∨
      ∃ t2, acceptCandidate centers (draws t2) = true ∧
        orphanSearchFrom draws centers t fuel = draws t2 := by
  intro fuel
  induction fuel with
  | zero => intro t; left; rfl
  | succ n ih =>
    intro t
    by_cases hacc : acceptCandidate centers (draws t) = true
    · right
      exact ⟨t, hacc, by simp [orphanSearchFrom, hacc]⟩
    · have := ih (t + 1)
      simpa [orphanSearchFrom, hacc] using this

/-- C4: whenever the orphan layer color is chosen, it either exceeds the
active squared-distance threshold (2000 with fewer than 10 layers, 500
with 10 or more) against every existing layer color, or — after the 50
draws fail — it is the fixed fallback color (BGR green).  Channel values
are uint8, hence bounded by 255. -/
theorem c4_orphan_color_policy (draws : ℕ → Color3) (centers : List Color3)
    (hdraws : ∀ t, chanOk (draws t)) (hcenters : ∀ c ∈ centers, chanOk c) :
    (∀ c ∈ centers, (orphanThreshold centers.length : ℤ) <
      dist2 c (orphanColorSearch draws centers)) ∨
    orphanColorSearch draws centers = orphanFallback := by
  rcases orphanSearchFrom_cases draws centers 50 0 with hfb | ⟨t2, hacc, heq⟩
  · right
    exact hfb
  · left
    intro c hc
    have h1 := acceptCandidate_spec hacc c hc
    have h2 := buggyDist_le c (draws t2) (hcenters c hc) (hdraws t2)
    unfold orphanColorSearch
    rw [heq]
    have h1z : (orphanThreshold centers.length : ℤ) <
        (buggyDist c (draws t2) : ℤ) := by exact_mod_cast h1
    exact lt_of_lt_of_le h1z h2

/-- Witness for C4 with a constant zero draw stream against a single
black layer color. -/
theorem c4_orphan_color_witness :
    (∀ c ∈ ([(0, 0, 0)] : List Color3),
      (orphanThreshold ([(0, 0, 0)] : List Color3).length : ℤ) <
        dist2 c (orphanColorSearch (fun _ => (0, 0, 0)) [(0, 0, 0)])) ∨
    orphanColorSearch (fun _ => (0, 0, 0)) [(0, 0, 0)] = orphanFallback :=
  c4_orphan_color_policy (fun _ => (0, 0, 0)) [(0, 0, 0)]
    (fun _ => ⟨by norm_num, by norm_num, by norm_num⟩)
    (fun c hc => by
      simp only [List.mem_singleton] at hc
      subst hc
      exact ⟨by norm_num, by norm_num, by norm_num⟩)

/-! ## Claim C6: the 2D sink payload -/

/-- C6 counterexample: the claim asserts the exported path set of a
layer contains each polygon's hole rings.  For the mask family with the
square outer boundary `outerSq` and the hole ring `holeSq` (kept intact
by the identity simplification and well above 3 vertices), the emitted
payload does not contain the hole ring: `RETR_EXTERNAL` discards it. -/
theorem c6_counterexample :
    3 ≤ (id holeSq).length ∧
    (⟨holeSq, true⟩ : SvgPathCmd) ∉
      (export2dLayer id [famHole] (0, 0, 0)).paths := by
  constructor <;> decide

/-- C6 amended: the per-layer 2D payload is the ordered list of closed
point-sequences of the *outer* rings only (each simplified and kept when
it retains at least 3 vertices) together with the single layer fill
color; hole rings are not emitted. -/
theorem c6_amended (approxFn : List IPt → List IPt) (fams : List ContourFam)
    (color : Color3) :
    export2dLayer approxFn fams color = ⟨outerOnlyPaths approxFn fams, color⟩ := by
  unfold export2dLayer outerOnlyPaths
  congr 1
  induction fams with
  | nil => rfl
  | cons f fs ih =>
    by_cases hf : (approxFn f.outer).length < 3 <;>
      simp only [List.map_cons, List.filterMap_cons, svgPathsOfContours,
        hf, if_pos, if_neg, ite_true, ite_false, if_true, if_false] <;>
      simp [hf, ih]

/-! ## Claim C9: stencil mode with an empty polygon set -/

theorem ok_bind {ε α β : Type} (a : α) (f : α → Except ε β) :
    (Except.ok a : Except ε α) >>= f = f a := rfl

theorem error_bind {ε α β : Type} (e : ε) (f : α → Except ε β) :
    (Except.error e : Except ε α) >>= f = Except.error e := rfl

theorem repairInvalid_of_valid {S M : Type} (ops : GeomOps S M) {p : S}
    (hv : ops.isValid p = true) : repairInvalid ops p = p := by
  simp [repairInvalid, hv]

/-- C9: in stencil mode, a layer whose built polygon set is empty
produces exactly the extrusion of the plain bordered plate — the
rectangle from `(-border, -border)` to
`(target_w + border, target_h + border)` (the scaled image dimensions
plus the border on all four sides) — to the configured height, with
nothing subtracted.  Hypotheses state that the plate constructor,
validity/emptiness checks and extrusion behave as they do on a plain
rectangle. -/
theorem c9_stencil_empty_plate {S M : Type} (ops : GeomOps S M)
    (approxFn : List IPt → List IPt) (pr : Export3DParams)
    (fams : List ContourFam) (plate : S) (sol : M)
    (hempty : buildPolys ops approxFn pr.scale pr.targetH fams = [])
    (hplate : ops.mkPoly (plateCorners pr) [] = .ok plate)
    (hmulti : ops.asMulti plate = none)
    (hvalid : ops.isValid plate = true)
    (hnonempty : ops.isEmpty plate = false)
    (hext : ops.extrude plate pr.height = .ok sol) :
    exportLayer ops approxFn pr true fams = .ok (some [sol]) ∧
    plateCorners pr =
      [(-pr.border, -pr.border), (pr.targetW + pr.border, -pr.border),
       (pr.targetW + pr.border, pr.origH * (pr.targetW / pr.origW) + pr.border),
       (-pr.border, pr.origH * (pr.targetW / pr.origW) + pr.border)] := by
  constructor
  · have hlp : layerPolys ops approxFn pr true fams = .ok [] := by
      unfold layerPolys
      rw [hempty]
      simp only [reduceIte]
      split <;> rfl
    have hsm : stencilMeshes ops pr [] = .ok [sol] := by
      unfold stencilMeshes
      rw [hplate, ok_bind]
      unfold stencilFinalShape splitMulti
      simp only [List.isEmpty_nil, reduceIte, hmulti]
      unfold extrudePieces
      rw [repairInvalid_of_valid ops hvalid]
      simp only [hnonempty, Bool.false_eq_true, if_false, reduceIte]
      rw [hext, ok_bind]
      rfl
    unfold exportLayer
    rw [hlp, ok_bind]
    simp only [reduceIte]
    rw [hsm, ok_bind]
    rfl
  · rfl

/-- Witness for C9 on the concrete total instance and stencil
parameters. -/
theorem c9_stencil_empty_plate_witness :
    exportLayer totalOps id prStencil true [] = .ok (some [4]) ∧
    plateCorners prStencil =
      [(-prStencil.border, -prStencil.border),
       (prStencil.targetW + prStencil.border, -prStencil.border),
       (prStencil.targetW + prStencil.border,
         prStencil.origH * (prStencil.targetW / prStencil.origW) +
           prStencil.border),
       (-prStencil.border,
         prStencil.origH * (prStencil.targetW / prStencil.origW) +
           prStencil.border)] :=
  c9_stencil_empty_plate totalOps id prStencil [] 4 4 rfl rfl rfl rfl rfl rfl

/-! ## Claims C1 and C3: stencil bridging

Shared lemmas about the per-hole loop first. -/

theorem bridgeHoles_total {S M : Type} (ops : GeomOps S M) (bw : ℚ)
    (hnear : ∀ s r, ∃ pq, ops.nearestExterior s r = .ok pq) :
    ∀ (rest : List S) (temp : S),
      ∃ t, bridgeHoles ops bw temp rest = .ok t := by
  intro rest
  induction rest with
  | nil => exact fun temp => ⟨temp, rfl⟩
  | cons r rest ih =>
    intro temp
    obtain ⟨pq, hpq⟩ := hnear temp r
    obtain ⟨t, ht⟩ := ih (match ops.difference temp (ops.bridgeShape pq bw) with
      | .ok d => repairInvalid ops d
      | .error _ => temp)
    exact ⟨t, by rw [bridgeHoles, hpq, ok_bind]; exact ht⟩

theorem bridgeOne_total {S M : Type} (ops : GeomOps S M) (bw : ℚ)
    (hnear : ∀ s r, ∃ pq, ops.nearestExterior s r = .ok pq) (poly : S) :
    ∃ piece, bridgeOne ops bw poly = .ok piece := by
  unfold bridgeOne
  split
  · exact ⟨_, rfl⟩
  · obtain ⟨t, ht⟩ := bridgeHoles_total ops bw hnear _ _
    rw [ht, ok_bind]
    rcases hm : ops.asMulti t with _ | gs
    · exact ⟨[t], rfl⟩
    · exact ⟨gs, rfl⟩

theorem apply_stencil_bridges_total {S M : Type} (ops : GeomOps S M) (bw : ℚ)
    (hnear : ∀ s r, ∃ pq, ops.nearestExterior s r = .ok pq) :
    ∀ polys : List S, ∃ out, apply_stencil_bridges ops bw polys = .ok out := by
  intro polys
  induction polys with
  | nil => exact ⟨[], rfl⟩
  | cons poly rest ih =>
    obtain ⟨piece, hp⟩ := bridgeOne_total ops bw hnear poly
    obtain ⟨tail, htl⟩ := ih
    exact ⟨piece ++ tail, by rw [apply_stencil_bridges, hp, ok_bind, htl, ok_bind]⟩

theorem bridgeHoles_diff_fail {S M : Type} (ops : GeomOps S M) (bw : ℚ)
    (hnear : ∀ s r, ∃ pq, ops.nearestExterior s r = .ok pq)
    (hdiff : ∀ s sh, ∃ e, ops.difference s sh = .error e) :
    ∀ (rest : List S) (temp : S), bridgeHoles ops bw temp rest = .ok temp := by
  intro rest
  induction rest with
  | nil => exact fun temp => rfl
  | cons r rest ih =>
    intro temp
    obtain ⟨pq, hpq⟩ := hnear temp r
    obtain ⟨e, he⟩ := hdiff temp (ops.bridgeShape pq bw)
    rw [bridgeHoles, hpq, ok_bind, he]
    exact ih temp

/-- C1 counterexample: the claim says an exception in the nearest-point
search for a hole leaves that hole un-bridged and never aborts the
export.  On an instance where the search raises (as
`temp_poly.exterior` does once the working shape is a `MultiPolygon`),
for a two-layer export whose first layer has a one-hole polygon, the
whole export returns the error: the second layer is never processed. -/
theorem c1_counterexample :
    nearestFailOps.interiors [5] = [[5]] ∧
    export3d nearestFailOps id prStencil true [[famTri], [famTri]] =
      .error "AttributeError" :=
  ⟨rfl, rfl⟩

/-- C1 amended: a bridge failure confined to the boolean difference
leaves that hole un-bridged and processing continues with the remaining
holes, polygons and layers — bridging never errors when the
nearest-point searches succeed, and with every difference failing the
polygons pass through unchanged; an exception in the nearest-point
search, by contrast, escapes (source line 977 sits outside the
`try`/`except`) and aborts the export, as the counterexample shows. -/
theorem c1_bridge_failure_containment {S M : Type} (ops : GeomOps S M)
    (bw : ℚ) (polys : List S)
    (hnear : ∀ s r, ∃ pq, ops.nearestExterior s r = .ok pq) :
    (∃ out, apply_stencil_bridges ops bw polys = .ok out) ∧
    ((∀ s sh, ∃ e, ops.difference s sh = .error e) →
      (∀ s, ops.asMulti s = none) →
      (∀ s, ops.isValid s = true) →
      apply_stencil_bridges ops bw polys = .ok polys) := by
  refine ⟨apply_stencil_bridges_total ops bw hnear polys, ?_⟩
  intro hdiff hmulti hvalid
  induction polys with
  | nil => rfl
  | cons poly rest ih =>
    have hone : bridgeOne ops bw poly = .ok [poly] := by
      unfold bridgeOne
      rw [repairInvalid_of_valid ops (hvalid poly)]
      split
      · rfl
      · rw [bridgeHoles_diff_fail ops bw hnear hdiff _ poly, ok_bind,
          hmulti poly]
    rw [apply_stencil_bridges, hone, ok_bind, ih, ok_bind]
    rfl

/-- Witness for the amended C1 on the concrete difference-failing
instance with one polygon carrying one hole. -/
theorem c1_bridge_failure_containment_witness :
    (∃ out, apply_stencil_bridges diffFailOps 1 [[5]] = .ok out) ∧
    ((∀ s sh, ∃ e, diffFailOps.difference s sh = .error e) →
      (∀ s, diffFailOps.asMulti s = none) →
      (∀ s, diffFailOps.isValid s = true) →
      apply_stencil_bridges diffFailOps 1 [[5]] = .ok [[5]]) :=
  c1_bridge_failure_containment diffFailOps 1 [[5]]
    (fun _ _ => ⟨((0, 0), (0, 0)), rfl⟩)

/-- C3 counterexample: the claim asserts every output piece of the
bridger has zero holes for any valid input polygon with at least one
hole and positive bridge width.  When the boolean difference fails on
the hole (the failure the source's own `except` on line 989 anticipates)
the polygon is emitted with its hole intact. -/
theorem c3_counterexample :
    (0 : ℚ) < 1 ∧ diffFailOps.isValid [5] = true ∧
    diffFailOps.interiors [5] = [[5]] ∧
    apply_stencil_bridges diffFailOps 1 [[5]] = .ok [[5]] :=
  ⟨by norm_num, rfl, rfl, rfl⟩

/-- C3 amended: provided every per-hole nearest-point search and boolean
difference succeeds, each difference removing the bridged hole without
introducing new holes (and a multi-polygon split distributing holes to
its pieces, `buffer(0)` adding none), every polygon piece output by the
stencil bridger has zero holes; a failed difference instead leaves its
hole in the output, as the counterexample shows. -/
theorem c3_bridged_pieces_hole_free {S M : Type} (ops : GeomOps S M)
    (bw : ℚ) (polys : List S)
    (hdiffTotal : ∀ s sh, ∃ d, ops.difference s sh = .ok d)
    (hdiffHoles : ∀ s r pq, ops.nearestExterior s r = .ok pq →
      ∀ d, ops.difference s (ops.bridgeShape pq bw) = .ok d →
      ∀ x ∈ ops.interiors d, x ∈ ops.interiors s ∧ x ≠ r)
    (hbuf : ∀ s, ∀ x ∈ ops.interiors (ops.buffer0 s), x ∈ ops.interiors s)
    (hmulti : ∀ s gs, ops.asMulti s = some gs →
      ∀ g ∈ gs, ∀ x ∈ ops.interiors g, x ∈ ops.interiors s)
    (out : List S) (hout : apply_stencil_bridges ops bw polys = .ok out) :
    ∀ p ∈ out, ops.interiors p = [] := by
  have hholes : ∀ (rest : List S) (temp : S),
      (∀ x ∈ ops.interiors temp, x ∈ rest) →
      ∀ t, bridgeHoles ops bw temp rest = .ok t → ops.interiors t = [] := by
    intro rest
    induction rest with
    | nil =>
      intro temp hinv t ht
      have : temp = t := by
        have := ht
        rw [bridgeHoles] at this
        exact Except.ok.inj this
      subst this
      exact List.eq_nil_iff_forall_not_mem.mpr
        (fun x hx => List.not_mem_nil x (hinv x hx))
    | cons r rest ih =>
      intro temp hinv t ht
      rcases hpq : ops.nearestExterior temp r with e | pq
      · rw [bridgeHoles, hpq, error_bind] at ht
        exact absurd ht (by simp)
      · obtain ⟨d, hd⟩ := hdiffTotal temp (ops.bridgeShape pq bw)
        rw [bridgeHoles, hpq, ok_bind, hd] at ht
        have hdmem : ∀ x ∈ ops.interiors d, x ∈ rest := by
          intro x hx
          obtain ⟨hxtemp, hxr⟩ := hdiffHoles temp r pq hpq d hd x hx
          rcases List.mem_cons.mp (hinv x hxtemp) with h | h
          · exact absurd h hxr
          · exact h
        refine ih (repairInvalid ops d) (fun x hx => ?_) t ht
        by_cases hv : ops.isValid d = true
        · rw [repairInvalid_of_valid ops hv] at hx
          exact hdmem x hx
        · unfold repairInvalid at hx
          rw [if_neg hv] at hx
          exact hdmem x (hbuf d x hx)
  have hone : ∀ (poly : S) (pieces : List S),
      bridgeOne ops bw poly = .ok pieces →
      ∀ p ∈ pieces, ops.interiors p = [] := by
    intro poly pieces hp p hmem
    unfold bridgeOne at hp
    split at hp
    all_goals rename_i hcond
    · have : pieces = [repairInvalid ops poly] := (Except.ok.inj hp).symm
      subst this
      rw [List.mem_singleton] at hmem
      subst hmem
      exact List.isEmpty_iff.mp hcond
    · rcases hbh : bridgeHoles ops bw (repairInvalid ops poly)
          (ops.interiors (repairInvalid ops poly)) with e | temp
      · rw [hbh, error_bind] at hp
        exact absurd hp (by simp)
      · have htempnil : ops.interiors temp = [] :=
          hholes _ _ (fun x hx => hx) temp hbh
        rw [hbh, ok_bind] at hp
        rcases hm : ops.asMulti temp with _ | gs
        · rw [hm] at hp
          have : pieces = [temp] := (Except.ok.inj hp).symm
          subst this
          rw [List.mem_singleton] at hmem
          subst hmem
          exact htempnil
        · rw [hm] at hp
          have : pieces = gs := (Except.ok.inj hp).symm
          subst this
          refine List.eq_nil_iff_forall_not_mem.mpr (fun x hx => ?_)
          have := hmulti temp pieces hm p hmem x hx
          rw [htempnil] at this
          exact List.not_mem_nil x this
  clear hdiffTotal hdiffHoles hbuf hmulti
  induction polys generalizing out with
  | nil =>
    have : out = [] := (Except.ok.inj hout).symm
    subst this
    intro p hp
    exact absurd hp (List.not_mem_nil p)
  | cons poly rest ih =>
    rcases hp1 : bridgeOne ops bw poly with e | piece
    · rw [apply_stencil_bridges, hp1, error_bind] at hout
      exact absurd hout (by simp)
    · rcases hp2 : apply_stencil_bridges ops bw rest with e | tail
      · rw [apply_stencil_bridges, hp1, ok_bind, hp2, error_bind] at hout
        exact absurd hout (by simp)
      · rw [apply_stencil_bridges, hp1, ok_bind, hp2, ok_bind] at hout
        have : piece ++ tail = out := Except.ok.inj hout
        subst this
        intro p hp
        rcases List.mem_append.mp hp with h | h
        · exact hone poly piece hp1 p h
        · exact ih tail hp2 p h

/-- Witness for the amended C3 on the concrete all-succeeding instance:
the single output piece of bridging the one-hole polygon `[5]` has no
holes. -/
theorem c3_bridged_pieces_hole_free_witness :
    bridgeOkOps.interiors [] = [] :=
  c3_bridged_pieces_hole_free bridgeOkOps 1 [[5]]
    (fun _ _ => ⟨[], rfl⟩)
    (fun s r pq _ d hd x hx => by
      have hd2 : (Except.ok ([] : List ℕ) : Except String (List ℕ)) =
          Except.ok d := hd
      have hdnil : d = [] := (Except.ok.inj hd2).symm
      subst hdnil
      simp [bridgeOkOps] at hx)
    (fun s x hx => hx)
    (fun s gs habs => by cases habs)
    [[]] rfl [] (by simp)

/-! ## Claim C2: per-layer failure isolation in the 3D export -/

/-- C2 counterexample: the claim says a single layer's geometry failure
skips only that layer and the batch is never aborted.  On an instance
where extruding the first layer's (triangle) polygon raises a
degenerate-mesh exception, the two-layer relief export returns the error
and the second layer — which exports fine on its own — is never
produced: the single `try` around the loop aborts the batch. -/
theorem c2_counterexample :
    export3d extrudeFailOps id prRelief false [[famTri], [famQuad]] =
      .error "degenerate mesh" ∧
    export3d extrudeFailOps id prRelief false [[famQuad]] =
      .ok [some [4]] :=
  ⟨rfl, rfl⟩

theorem extrudePieces_total {S M : Type} (ops : GeomOps S M) (ht : ℚ)
    (hext : ∀ s h2, ∃ m, ops.extrude s h2 = .ok m) :
    ∀ pieces : List S, ∃ ms, extrudePieces ops ht pieces = .ok ms := by
  intro pieces
  induction pieces with
  | nil => exact ⟨[], rfl⟩
  | cons p rest ih =>
    obtain ⟨ms, hms⟩ := ih
    by_cases he : ops.isEmpty (repairInvalid ops p) = true
    · exact ⟨ms, by rw [extrudePieces, if_pos he]; exact hms⟩
    · obtain ⟨m, hm⟩ := hext (repairInvalid ops p) ht
      exact ⟨m :: ms, by
        rw [extrudePieces, if_neg he, hm, ok_bind, hms, ok_bind]⟩

theorem layerPolys_total {S M : Type} (ops : GeomOps S M)
    (approxFn : List IPt → List IPt) (pr : Export3DParams) (stencil : Bool)
    (fams : List ContourFam)
    (hnear : ∀ s r, ∃ pq, ops.nearestExterior s r = .ok pq) :
    ∃ polys, layerPolys ops approxFn pr stencil fams = .ok polys := by
  unfold layerPolys
  split
  · split
    · exact apply_stencil_bridges_total ops pr.bridge hnear _
    · exact ⟨_, rfl⟩
  · exact ⟨_, rfl⟩

theorem stencilMeshes_total {S M : Type} (ops : GeomOps S M)
    (pr : Export3DParams) (polys : List S)
    (hplate : ∃ s, ops.mkPoly (plateCorners pr) [] = .ok s)
    (hext : ∀ s h2, ∃ m, ops.extrude s h2 = .ok m) :
    ∃ ms, stencilMeshes ops pr polys = .ok ms := by
  obtain ⟨plate, hpl⟩ := hplate
  obtain ⟨ms, hms⟩ := extrudePieces_total ops pr.height hext
    (splitMulti ops (stencilFinalShape ops plate polys))
  exact ⟨ms, by rw [stencilMeshes, hpl, ok_bind]; exact hms⟩

theorem reliefBlobMeshes_total {S M : Type} (ops : GeomOps S M)
    (pr : Export3DParams) (polys : List S)
    (hunion : ∀ l, ∃ s, ops.unionAll l = .ok s)
    (hext : ∀ s h2, ∃ m, ops.extrude s h2 = .ok m) :
    ∃ ms, reliefBlobMeshes ops pr polys = .ok ms := by
  unfold reliefBlobMeshes
  split
  · exact ⟨[], rfl⟩
  · obtain ⟨u, hu⟩ := hunion polys
    obtain ⟨ms, hms⟩ := extrudePieces_total ops pr.height hext
      (splitMulti ops u)
    exact ⟨ms, by rw [hu, ok_bind]; exact hms⟩

theorem reliefWithBorder_total {S M : Type} (ops : GeomOps S M)
    (pr : Export3DParams) (blobMeshes : List M)
    (hborder : 0 < pr.border →
      ∃ s, ops.mkPoly (plateCorners pr) [innerBoxCorners pr] = .ok s)
    (hext : ∀ s h2, ∃ m, ops.extrude s h2 = .ok m) :
    ∃ ms, reliefWithBorder ops pr blobMeshes = .ok ms := by
  unfold reliefWithBorder
  split
  all_goals rename_i hbw
  · obtain ⟨bp, hbp⟩ := hborder hbw
    obtain ⟨bm, hbm⟩ := hext bp pr.height
    exact ⟨blobMeshes ++ [bm], by rw [hbp, ok_bind, hbm, ok_bind]⟩
  · exact ⟨blobMeshes, rfl⟩

theorem exportLayer_total {S M : Type} (ops : GeomOps S M)
    (approxFn : List IPt → List IPt) (pr : Export3DParams) (stencil : Bool)
    (fams : List ContourFam)
    (hmkPlate : stencil = true → ∃ s, ops.mkPoly (plateCorners pr) [] = .ok s)
    (hmkBorder : stencil = false → 0 < pr.border →
      ∃ s, ops.mkPoly (plateCorners pr) [innerBoxCorners pr] = .ok s)
    (hnear : ∀ s r, ∃ pq, ops.nearestExterior s r = .ok pq)
    (hunion : stencil = false → ∀ l, ∃ s, ops.unionAll l = .ok s)
    (hext : ∀ s h2, ∃ m, ops.extrude s h2 = .ok m) :
    ∃ r, exportLayer ops approxFn pr stencil fams = .ok r := by
  obtain ⟨polys, hpolys⟩ := layerPolys_total ops approxFn pr stencil fams hnear
  unfold exportLayer
  rw [hpolys, ok_bind]
  cases stencil
  · simp only [Bool.false_eq_true, if_false]
    obtain ⟨bms, hbms⟩ := reliefBlobMeshes_total ops pr polys (hunion rfl) hext
    obtain ⟨ms, hms⟩ := reliefWithBorder_total ops pr bms (hmkBorder rfl) hext
    exact ⟨_, by rw [hbms, ok_bind, hms, ok_bind]⟩
  · simp only [if_true]
    obtain ⟨ms, hms⟩ := stencilMeshes_total ops pr polys (hmkPlate rfl) hext
    exact ⟨_, by rw [hms, ok_bind]⟩

/-- C2 amended: the failure modes the exporter checks for — a
per-contour polygon-construction exception (that contour is skipped), a
stencil-mode union/difference failure (the undifferenced plate stands
in), and empty or invalid shapes (repaired or skipped) — never abort the
batch: the hypotheses require success only at the *unguarded* call
sites, namely the plate constructor in stencil mode, the frame
constructor in relief mode with a positive border, the nearest-point
search during bridging, the relief-mode union, and extrusion; every
guarded construction, union or difference may fail arbitrarily, and the
export still completes with exactly one result per layer.  An exception
from an unguarded operation instead aborts every remaining layer, as
the counterexample shows. -/
theorem c2_layer_failures_isolated {S M : Type} (ops : GeomOps S M)
    (approxFn : List IPt → List IPt) (pr : Export3DParams) (stencil : Bool)
    (layers : List (List ContourFam))
    (hmkPlate : stencil = true → ∃ s, ops.mkPoly (plateCorners pr) [] = .ok s)
    (hmkBorder : stencil = false → 0 < pr.border →
      ∃ s, ops.mkPoly (plateCorners pr) [innerBoxCorners pr] = .ok s)
    (hnear : ∀ s r, ∃ pq, ops.nearestExterior s r = .ok pq)
    (hunion : stencil = false → ∀ l, ∃ s, ops.unionAll l = .ok s)
    (hext : ∀ s h2, ∃ m, ops.extrude s h2 = .ok m) :
    ∃ res, export3d ops approxFn pr stencil layers = .ok res ∧
      res.length = layers.length := by
  induction layers with
  | nil => exact ⟨[], rfl, rfl⟩
  | cons l rest ih =>
    obtain ⟨r, hr⟩ := exportLayer_total ops approxFn pr stencil l
      hmkPlate hmkBorder hnear hunion hext
    obtain ⟨res, hres, hlen⟩ := ih
    refine ⟨r :: res, ?_, by simpa using hlen⟩
    rw [export3d, hr, ok_bind, hres, ok_bind]

/-- Witness for the amended C2 on the instance whose guarded operations
fail: in the stencil layer `[famTri, famQuad]` the triangle's polygon
construction raises (caught per contour, line 1059) and the blob union
raises (caught with the plate fallback, line 1081), yet the export
completes with one result for the layer. -/
theorem c2_layer_failures_isolated_witness :
    ∃ res,
      export3d guardedFailOps id prStencil true [[famTri, famQuad]] =
        .ok res ∧
      res.length = [[famTri, famQuad]].length :=
  c2_layer_failures_isolated guardedFailOps id prStencil true
    [[famTri, famQuad]]
    (fun _ => ⟨4, rfl⟩)
    (fun h _ => nomatch h)
    (fun _ _ => ⟨((0, 0), (0, 0)), rfl⟩)
    (fun h => nomatch h)
    (fun s _ => ⟨s, rfl⟩)

end CamoStudio
